import Mathlib

/-!
# Shallow embedding of the LiSE temporal location store

This file embeds the parts of the LiSE repository that manage a thing's
branch/tick-indexed location history:

* `thing.py` — `Thing.get_location`, `Thing.get_location_rd`,
  `Thing.set_location`, `Thing.get_ticks_thru`, `Thing.journey_to`,
  `Thing.follow_path`, `Thing.new_branch`, `Thing.branch_loc_rds`,
  `Thing.restore_loc_rds`;
* `LiSE/closet.py` — `Closet.time_travel`, `Closet.new_branch`,
  `Closet.increment_branch`, `Closet.time_travel_inc_branch`,
  `Closet.checkpoint`, `Closet.uptick_bone`, `Closet.save_game`'s diff.

The skeleton of location records (`closet.skeleton["thing_location"]
[dimension][thing]`) is embedded as an association list from branch
numbers to *series* — association lists from ticks to location records.
Python's `Skeleton.key_before` / `key_after` (defined in `util.py`, which
is not part of the sources here) are modelled from the spec as "greatest
key strictly below" / "least key strictly above"; a `KeyError` raised when
no such key exists is modelled as `none`.

We model a world holding a single dimension with a single thing, which is
what every claim under study quantifies over; `Closet.new_branch`'s
propagation loop over dimensions/things therefore reaches exactly this
thing.  Exceptions are modelled by `Except`: every Python `raise`
in the embedded code paths occurs before any mutation of the skeleton on
that path, so an `Except.error` result faithfully stands for "exception
raised, state as before the statement".
-/

/-- A row of the `thing_location` table: one location fact.
Mirrors the dict built in `Thing.set_location`
(`{"dimension": ..., "thing": ..., "branch": ..., "tick_from": ...,
"location": ...}`); `location` is `none` for a tombstone (a row whose
location is Python `None`). -/
structure RD where
  dimension : String
  thing : String
  branch : Nat
  tick_from : Int
  location : Option String
  deriving DecidableEq, Repr

/-- A directed edge of the dimension graph.  The Python `Portal` class
(`model/portal.py`, not among the sources) is modelled from the spec:
a portal has an `origin`, a `destination`, and a length (`len(po)`,
the number of spans). -/
structure Portal where
  origin : String
  destination : String
  len : Nat
  deriving DecidableEq, Repr

/-- One thing's location series in one branch: ticks mapped to rows,
kept as an association list in ascending tick order. -/
abbrev Series := List (Int × RD)

/-- The `thing_location` skeleton for one thing: branches mapped to
series, in ascending branch order. -/
abbrev Skel := List (Nat × Series)

/-- Resolved location objects, as returned by `Thing.get_location`:
a `Portal`, another `Thing` of the same dimension, or a `Place`. -/
inductive LocObj where
  | portal (origin destination : String)
  | thing (name : String)
  | place (name : String)
  deriving DecidableEq, Repr

/-- The timestream state: the `hi_branch`/`hi_tick` watermarks and the
registered branch records (`skeleton["timestream"]`: branch ↦ parent). -/
structure Timestream where
  hi_branch : Nat
  hi_tick : Int
  branches : List (Nat × Nat)
  deriving DecidableEq, Repr

/-- The world state: the closet's cursor, the timestream, the single
thing's location skeleton, the dimension's thing names and graph, the
time-travel history, the `new_branch_blank` flag of the thing, and the
checkpoint baseline (`old_skeleton`). -/
structure World where
  dimName : String
  thingName : String
  things : List String
  locations : Skel
  graph : List Portal
  branch : Nat
  tick : Int
  ts : Timestream
  history : List (Nat × Int)
  blank : Bool
  old : Skel
  deriving DecidableEq, Repr

/-! ## Association-list primitives (the Skeleton dictionary) -/

/-- Exact lookup in a series (Python `self.locations[branch][tick]`
when the key is present). -/
def series_get : Series → Int → Option RD
  | [], _ => none
  | (k, rd) :: rest, t => if k = t then some rd else series_get rest t

/-- Insert or overwrite a row at a tick, keeping ascending key order. -/
def series_put : Series → Int → RD → Series
  | [], t, rd => [(t, rd)]
  | (k, r) :: rest, t, rd =>
    if t < k then (t, rd) :: (k, r) :: rest
    else if t = k then (t, rd) :: rest
    else (k, r) :: series_put rest t rd

/-- Lookup of a branch's series (Python `self.locations[branch]`). -/
def skel_series : Skel → Nat → Option Series
  | [], _ => none
  | (b, s) :: rest, c => if b = c then some s else skel_series rest c

/-- Insert or overwrite a branch's series, keeping ascending key order. -/
def skel_set : Skel → Nat → Series → Skel
  | [], b, s => [(b, s)]
  | (c, u) :: rest, b, s =>
    if b < c then (b, s) :: (c, u) :: rest
    else if b = c then (b, s) :: rest
    else (c, u) :: skel_set rest b s

/-- Remove a branch (Python `del self.locations[branch]`; deleting an
absent key would raise, but the embedded call site only deletes a branch
it has just read). -/
def skel_del : Skel → Nat → Skel
  | [], _ => []
  | (c, u) :: rest, b =>
    if c = b then skel_del rest b else (c, u) :: skel_del rest b

/-- `Skeleton.key_before` (from `util.py`, not among the sources).
Modelled from the spec: the greatest key strictly before `t`, `none`
standing for the `KeyError` raised when there is none. -/
def key_before : Series → Int → Option Int
  | [], _ => none
  | p :: rest, t =>
    if p.1 < t then
      match key_before rest t with
      | none => some p.1
      | some m => some (max p.1 m)
    else key_before rest t

/-- `Skeleton.key_after` (from `util.py`, not among the sources).
Modelled from the spec ("next fact after current tick"): the least key
strictly after `t`, `none` standing for the `KeyError` raised when there
is none. -/
def key_after : Series → Int → Option Int
  | [], _ => none
  | p :: rest, t =>
    if p.1 > t then
      match key_after rest t with
      | none => some p.1
      | some m => some (min p.1 m)
    else key_after rest t

/-- `key_after` applied to a branch of the skeleton; `none` also covers
the `KeyError` of indexing a missing branch. -/
def skel_key_after (sk : Skel) (b : Nat) (t : Int) : Option Int :=
  match skel_series sk b with
  | none => none
  | some s => key_after s t

/-! ## The `Portal(origin->destination)` regular expression

`thing.py` compiles `portex = "Portal\((.+)->(.+)\)"` and uses
`re.match`, which anchors at the start only and backtracks greedily:
the first group takes the longest prefix after `"Portal("` that still
leaves `->`, a nonempty second group and a closing `)` (trailing
characters are allowed). -/

/-- Index of the last `')'` in `cs` that leaves a nonempty second group
before it (the greedy `(.+)\)` tail of the pattern). -/
def last_paren_idx (cs : List Char) : Option Nat :=
  (List.range cs.length).foldl
    (fun acc i => if cs.get? i = some ')' ∧ 1 ≤ i then some i else acc)
    none

/-- Greedy match of `(.+)->(.+)\)` against `cs`, trailing junk allowed:
the split at the rightmost viable `->` wins, exactly as the backtracking
regex engine resolves the greedy groups. -/
def arrow_split (cs : List Char) : Option (List Char × List Char) :=
  (List.range cs.length).foldl
    (fun acc i =>
      if (cs.drop i).take 2 = ['-', '>'] ∧ 1 ≤ i then
        match last_paren_idx (cs.drop (i + 2)) with
        | some j => some (cs.take i, (cs.drop (i + 2)).take j)
        | none => acc
      else acc)
    none

/-- `re.match(portex, s)`: `some (origin, destination)` when the string
matches `Portal\((.+)->(.+)\)` at its start, with the groups the
backtracking engine would produce. -/
def portexMatch (s : String) : Option (String × String) :=
  let cs := s.data
  if cs.take 7 = ("Portal(").data then
    match arrow_split (cs.drop 7) with
    | some (g1, g2) => some (⟨g1⟩, ⟨g2⟩)
    | none => none
  else none

example : portexMatch "Portal(A->B)" = some ("A", "B") := by decide
example : portexMatch "A" = none := by decide
example : portexMatch "None" = none := by decide
example : portexMatch "Portal(A->B->C)" = some ("A->B", "C") := by decide

/-! ## Errors -/

/-- Errors raised under `Closet.time_travel` / `Closet.new_branch`:
`TimestreamException` ("Tried to travel too high a branch") and the
`KeyError` that `Skeleton` indexing raises on a missing key. -/
inductive TErr where
  | timestream
  | key_missing
  deriving DecidableEq, Repr

/-- Errors escaping `Thing.journey_to`: `JourneyException`, an escaped
`TimeParadox`, a propagated `TimestreamException`, or a `KeyError`. -/
inductive JErr where
  | journey
  | time_paradox
  | timestream
  | key_missing
  deriving DecidableEq, Repr

/-- `.ok` projection of an `Except` result. -/
def ex_ok : Except ε α → Option α
  | .ok a => some a
  | .error _ => none

/-! ## Timestream (watermarks; `util.py` is not among the sources) -/

namespace Timestream

/-- Modelled from the spec: `upbranch` raises the `hi_branch` watermark
("tracks the highest known branch"), mirroring `Closet.uptick_bone`'s
`if bone.branch > hi_branch: hi_branch = bone.branch`. -/
def upbranch (ts : Timestream) (b : Nat) : Timestream :=
  { ts with hi_branch := if b > ts.hi_branch then b else ts.hi_branch }

/-- Modelled from the spec: `uptick` raises the `hi_tick` watermark
("tracks the highest known tick"), mirroring `Closet.uptick_bone`'s
`if bone.tick_from > hi_tick: hi_tick = bone.tick_from`. -/
def uptick (ts : Timestream) (t : Int) : Timestream :=
  { ts with hi_tick := if t > ts.hi_tick then t else ts.hi_tick }

/-- Modelled from the spec: `Timestream.max_branch()` is the largest
branch registered in `skeleton["timestream"]` (trunk 0 always counts). -/
def max_branch (ts : Timestream) : Nat :=
  ts.branches.foldl (fun a p => max a p.1) 0

/-- Register a branch record (`skeleton["timestream"][branch] =
bonetype(branch=branch, parent=parent)`). -/
def register (ts : Timestream) (b parent : Nat) : Timestream :=
  { ts with branches :=
      (ts.branches.filter (fun p => p.1 ≠ b)) ++ [(b, parent)] }

/-- Modelled from the spec: `Timestream.min_tick(branch,
"thing_location")` is the least tick with data for that branch
("min_tick_with_data"); `0` when the branch has no data. -/
def min_tick (w : World) (b : Nat) : Int :=
  match skel_series w.locations b with
  | none => 0
  | some [] => 0
  | some ((k, _) :: rest) => rest.foldl (fun a p => min a p.1) k

end Timestream

/-! ## Thing -/

namespace Thing

/-- `Thing.get_location_rd` (`thing.py` lines 110–119): if the branch is
absent return `None`; if the exact tick is absent move to
`key_before(tick)`; `none` also stands for the `KeyError` raised by
`key_before` when there is no earlier key (`get_location` catches it). -/
def get_location_rd (w : World) (b : Nat) (t : Int) : Option RD :=
  match skel_series w.locations b with
  | none => none
  | some ser =>
    match series_get ser t with
    | some rd => some rd
    | none =>
      match key_before ser t with
      | none => none
      | some k => series_get ser k

/-- `Thing.get_location` (`thing.py` lines 93–108): resolve the row at
that time into a `Portal` when the stored string matches `portex`, into
the named `Thing` when the dimension's `thingdict` has it, else into the
named `Place`; `None` on a missing row or a tombstone. -/
def get_location (w : World) (b : Nat) (t : Int) : Option LocObj :=
  match get_location_rd w b t with
  | none => none
  | some rd =>
    match rd.location with
    | none => none
    | some s =>
      match portexMatch s with
      | some (o, d) => some (.portal o d)
      | none =>
        if s ∈ w.things then some (.thing s) else some (.place s)

/-- Python `str(...)` of a resolved location, as `journey_to` computes
`oloc = str(self.get_location(branch, tick))`: `str(None)` is the string
`"None"`; `Portal.__str__`/`Place.__str__`/`Thing.__str__` (in files not
among the sources) are modelled from the spec's naming, a portal
printing as `Portal(origin->destination)` and places/things as their
names. -/
def str_of_loc_opt : Option LocObj → String
  | none => "None"
  | some (.portal o d) => "Portal(" ++ o ++ "->" ++ d ++ ")"
  | some (.thing n) => n
  | some (.place n) => n

/-- `Thing.set_location` (`thing.py` lines 128–151): write the row dict
at `(branch, tick)` (creating the branch's sub-dict when absent), then
`timestream.upbranch(branch)` and `timestream.uptick(tick)`. -/
def set_location (w : World) (loc : String) (b : Nat) (t : Int) : World :=
  let ser := (skel_series w.locations b).getD []
  let rd : RD := ⟨w.dimName, w.thingName, b, t, some loc⟩
  { w with
    locations := skel_set w.locations b (series_put ser t rd),
    ts := Timestream.uptick (Timestream.upbranch w.ts b) t }

/-- `Thing.get_ticks_thru` (`thing.py` lines 158–162):
`int(len(po) / self.basic_speed)` with `basic_speed = 0.1`.  For the
value 0.1 the quotient is exactly `10 * len(po)`, which `int`
truncation returns unchanged; the embedding uses that exact value. -/
def get_ticks_thru (po : Portal) : Nat :=
  po.len * 10

/-- The write loop of `Thing.follow_path` (`thing.py` lines 264–269):
starting from `prevtick = tick + 1`, for each portal set the location to
the portal at `prevtick`, advance by `get_ticks_thru`, set the location
to the portal's destination, and advance by one more tick. -/
def follow_write (b : Nat) : World → Int → List Portal → World
  | w, _, [] => w
  | w, prevtick, port :: rest =>
    let w1 := set_location w (str_of_loc_opt (some (.portal port.origin port.destination))) b prevtick
    let t1 := prevtick + (get_ticks_thru port : Int)
    let w2 := set_location w1 port.destination b t1
    follow_write b w2 (t1 + 1) rest

/-- `Thing.follow_path` (`thing.py` lines 255–269): raise `TimeParadox`
when `self.locations[branch].key_after(tick)` finds a committed fact
after the starting tick (a `KeyError` — branch or successor missing —
is "a good thing" and is swallowed); otherwise run the write loop. -/
def follow_path (w : World) (path : List Portal) (b : Nat) (t : Int) :
    Except Unit World :=
  match skel_key_after w.locations b t with
  | some _ => .error ()
  | none => .ok (follow_write b w (t + 1) path)

/-- `Thing.branch_loc_rds` (`thing.py` lines 302–306): the branch's rows
in `iterrows()` order; indexing a missing branch raises `KeyError`. -/
def branch_loc_rds (w : World) (b : Nat) : Option (List RD) :=
  match skel_series w.locations b with
  | none => none
  | some ser => some (ser.map Prod.snd)

/-- `Thing.restore_loc_rds` (`thing.py` lines 308–311): replay
`set_location(rd["location"], rd["branch"], rd["tick_from"])` for each
saved row (a `None` location passes through `str()` as `"None"`). -/
def restore_loc_rds (w : World) (rds : List RD) : World :=
  rds.foldl
    (fun acc rd =>
      set_location acc
        (match rd.location with | none => "None" | some s => s)
        rd.branch rd.tick_from)
    w

end Thing

/-! ## Branch creation on the thing -/

namespace Thing

/-- One iteration of the copy loop of `Thing.new_branch` (`thing.py`
lines 283–300): rows at `tick_from >= tick` are copied into the new
branch; at the first such row strictly beyond `tick`, the immediately
preceding row (when it starts strictly before `tick`) is copied in at
`tick` itself.  The state is `(skeleton, prev, started)`. -/
def new_branch_step (b : Nat) (t : Int)
    (acc : Skel × Option RD × Bool) (p : Int × RD) :
    Skel × Option RD × Bool :=
  let (sk, prev, started) := acc
  let rd := p.2
  if rd.tick_from ≥ t then
    let rd2 := { rd with branch := b }
    let sk1 := skel_set sk b (series_put ((skel_series sk b).getD []) rd2.tick_from rd2)
    let sk2 :=
      match prev with
      | some pr =>
        if ¬started ∧ rd.tick_from > t ∧ pr.tick_from < t then
          let rd3 := { pr with branch := b, tick_from := t }
          skel_set sk1 b (series_put ((skel_series sk1 b).getD []) t rd3)
        else sk1
      | none => sk1
    (sk2, some rd, true)
  else (sk, some rd, started)

/-- `if branch not in self.locations: self.locations[branch] = {}`
(`thing.py` lines 274–275). -/
def ensure_branch (w : World) (b : Nat) : World :=
  if (skel_series w.locations b).isSome then w
  else { w with locations := skel_set w.locations b [] }

/-- `Thing.new_branch` (`thing.py` lines 271–300).  First make sure the
new branch has a sub-dict; with `new_branch_blank` set, seed the branch
with the single location the thing has at the fork tick in the parent
(moving to the next fact's tick when that location is a portal —
`key_after` on a parent without a successor raises `KeyError`);
otherwise copy the parent rows from the fork tick on (iterating a
missing parent raises `KeyError`).  The copy loop writes the skeleton
directly, without the timestream watermark updates of `set_location`. -/
def new_branch (w : World) (parent b : Nat) (t : Int) :
    Except TErr World :=
  let w0 := ensure_branch w b
  if w0.blank then
    match get_location w0 parent t with
    | some (.portal _ _) =>
      match skel_key_after w0.locations parent t with
      | none => .error .key_missing
      | some t2 =>
        .ok (set_location w0 (str_of_loc_opt (get_location w0 parent t2)) b t2)
    | sl => .ok (set_location w0 (str_of_loc_opt sl) b t)
  else
    match skel_series w0.locations parent with
    | none => .error .key_missing
    | some pser =>
      let r := pser.foldl (new_branch_step b t) (w0.locations, none, false)
      .ok { w0 with locations := r.1 }

end Thing

/-! ## Closet -/

namespace Closet

/-- `Closet.new_branch` (`closet.py` lines 725–733): propagate the
branch creation to every dimension (here: to the single thing) and
register the branch record in `skeleton["timestream"]`. -/
def new_branch (w : World) (parent b : Nat) (t : Int) :
    Except TErr World :=
  match Thing.new_branch w parent b t with
  | .error e => .error e
  | .ok w1 => .ok { w1 with ts := Timestream.register w1.ts b parent }

/-- The tail of `Closet.time_travel` after the branch checks: clamp the
tick to `>= 0` and to `min_tick(branch)`, append the pre-call cursor to
`time_travel_history`, raise `hi_tick` when exceeded, move the cursor. -/
def tt_finish (w1 : World) (b : Nat) (t : Int) : World :=
  let t1 : Int := if t < 0 then 0 else t
  let mt := Timestream.min_tick w1 b
  let t2 := if t1 < mt then mt else t1
  { w1 with
    history := w1.history ++ [(w1.branch, w1.tick)],
    ts := { w1.ts with
      hi_tick := if t2 > w1.ts.hi_tick then t2 else w1.ts.hi_tick },
    branch := b,
    tick := t2 }

/-- `Closet.time_travel` (`closet.py` lines 696–713): refuse to skip
branch numbers (`TimestreamException` when `branch > hi_branch + 1`,
raised before anything changes); fork via `new_branch(self.branch,
branch, tick)` when `branch == hi_branch + 1`; then clamp and move. -/
def time_travel (w : World) (b : Nat) (t : Int) : Except TErr World :=
  if b > w.ts.hi_branch + 1 then .error .timestream
  else
    match
      (if b = w.ts.hi_branch + 1 then new_branch w w.branch b t
       else .ok w) with
    | .error e => .error e
    | .ok w1 => .ok (tt_finish w1 b t)

/-- `Closet.increment_branch` (`closet.py` lines 715–723): when the
target branch number exceeds `max_branch()`, fork `self.branch + 1` off
the current branch first (the return value is unused by
`time_travel_inc_branch`). -/
def increment_branch (w : World) (k : Nat) : Except TErr World :=
  let b := w.branch + k
  if b > Timestream.max_branch w.ts then
    new_branch w w.branch (w.branch + 1) w.tick
  else .ok w

/-- `Closet.time_travel_inc_branch` (`closet.py` lines 739–741):
`increment_branch(branches)` then `time_travel(self.branch + branches,
self.tick)`. -/
def time_travel_inc_branch (w : World) (k : Nat) : Except TErr World :=
  match increment_branch w k with
  | .error e => .error e
  | .ok w1 => time_travel w1 (w1.branch + k) w1.tick

/-- `Closet.checkpoint` (`closet.py` lines 768–769):
`self.old_skeleton = self.skeleton.copy()`. -/
def checkpoint (w : World) : World :=
  { w with old := w.locations }

/-- The rows of every branch of a skeleton, in order. -/
def all_rds (sk : Skel) : List RD :=
  sk.foldr (fun p acc => p.2.map Prod.snd ++ acc) []

/-- The diff `save_game` computes (`closet.py` lines 450–451:
`to_save = skeleton - old_skeleton`, `to_delete = old_skeleton -
skeleton`).  `Skeleton.__sub__` lives in `util.py`, not among the
sources; modelled from the spec: `diff(baseline)` "returns the set of
facts added and removed since a previously captured snapshot". -/
def skel_minus (a b : Skel) : List RD :=
  (all_rds a).filter (fun rd => decide (rd ∉ all_rds b))

end Closet

/-! ## Pathfinding over the dimension graph

`journey_to` calls `self.dimension.graph.get_shortest_paths(...)`
(igraph, an external collaborator; `model/dimension.py` is not among the
sources).  Modelled from the spec: "compute shortest edge-path (by
portal count) from start place to destination in the character's graph;
if none exists", no path is produced. -/

/-- Does a portal sequence chain correctly starting from `src`? -/
def chain_ok : String → List Portal → Bool
  | _, [] => true
  | s, e :: es => e.origin == s && chain_ok e.destination es

/-- The place a portal sequence ends at, starting from `src`. -/
def path_end (src : String) (p : List Portal) : String :=
  p.foldl (fun _ e => e.destination) src

/-- All chained portal sequences of length at most `n` out of `src`,
using edges of `g`. -/
def chains (g : List Portal) : Nat → String → List (List Portal)
  | 0, _ => [[]]
  | n + 1, src =>
    [[]] ++
      (g.filter (fun e => e.origin == src)).flatMap
        (fun e => (chains g n e.destination).map (e :: ·))

/-- A genuine portal path from `src` to `dst` in `g`: nonempty, made of
edges of `g`, chained, ending at `dst`. -/
def IsPath (g : List Portal) (src dst : String) (p : List Portal) : Prop :=
  p ≠ [] ∧ (∀ e ∈ p, e ∈ g) ∧ chain_ok src p = true ∧ path_end src p = dst

/-- First sequence of minimal length. -/
def pick_shortest : List (List Portal) → Option (List Portal) :=
  List.foldl
    (fun acc p =>
      match acc with
      | none => some p
      | some q => if p.length < q.length then some p else acc)
    none

/-- Modelled from the spec: `get_shortest_paths` produces a shortest
edge-path by portal count, and `journey_to` keeps one that is nonempty
and ends at the destination (an empty path — travelling to the current
place — is skipped by the `if p == []: continue` loop, leaving no
path). -/
def find_path (g : List Portal) (src dst : String) : Option (List Portal) :=
  pick_shortest
    ((chains g g.length src).filter
      (fun p => decide (p ≠ [] ∧ path_end src p = dst)))

/-! ## The branch-increment search of `journey_to`'s paradox handler -/

/-- Largest branch number keyed in the skeleton. -/
def skel_max_branch (sk : Skel) : Nat :=
  sk.foldl (fun a p => max a p.1) 0

theorem foldl_max_le_init (sk : Skel) :
    ∀ a : Nat, a ≤ sk.foldl (fun x p => max x p.1) a := by
  induction sk with
  | nil => intro a; simp
  | cons h rest ih =>
    intro a
    exact le_trans (le_max_left a h.1) (ih (max a h.1))

theorem foldl_max_mono (sk : Skel) :
    ∀ a b : Nat, a ≤ b →
      sk.foldl (fun x p => max x p.1) a ≤ sk.foldl (fun x p => max x p.1) b := by
  induction sk with
  | nil => intro a b hab; simpa using hab
  | cons h rest ih =>
    intro a b hab
    exact ih _ _ (max_le_max_right h.1 hab)

theorem le_skel_max_branch (sk : Skel) (b : Nat)
    (h : (skel_series sk b).isSome) : b ≤ skel_max_branch sk := by
  induction sk with
  | nil => simp [skel_series] at h
  | cons hd rest ih =>
    unfold skel_series at h
    by_cases hb : hd.1 = b
    · subst hb
      refine le_trans (le_max_right 0 hd.1) ?_
      exact foldl_max_le_init rest (max 0 hd.1)
    · rw [if_neg hb] at h
      refine le_trans (ih h) ?_
      exact foldl_max_mono rest 0 (max 0 hd.1) (Nat.zero_le _)

/-- The `while branch + increment in self.locations: increment += 1`
loop of `journey_to`'s paradox handler (`thing.py` lines 240–242),
run with enough fuel to pass every branch keyed in the skeleton. -/
def inc_find_go (sk : Skel) (b : Nat) : Nat → Nat → Nat
  | 0, i => i
  | fuel + 1, i =>
    if (skel_series sk (b + i)).isSome then inc_find_go sk b fuel (i + 1)
    else i

/-- The least `increment ≥ 1` whose branch is not yet in the thing's
locations (the loop of `thing.py` lines 240–242). -/
def inc_find (sk : Skel) (b : Nat) : Nat :=
  inc_find_go sk b (skel_max_branch sk + 1) 1

/-! ## The journey -/

namespace Thing

/-- Lines 209–218 of `thing.py`: resolve the journey's start.  `oloc =
str(self.get_location(branch, tick))`; when `oloc` matches `portex` the
start place is the regex's *first* group and travel starts at
`self.locations[branch].key_after(otick)` (whose `KeyError`, modelled by
`none`, is not caught here); otherwise start at `oloc` and `otick`. -/
def journey_start (w : World) (branch : Nat) (otick : Int) :
    String × Option Int :=
  let oloc := str_of_loc_opt (get_location w branch otick)
  match portexMatch oloc with
  | some (g1, _) => (g1, skel_key_after w.locations branch otick)
  | none => (oloc, some otick)

/-- `Thing.journey_to` (`thing.py` lines 198–253).  Resolve the start,
find a path (else `JourneyException`), snapshot the branch's rows, try
`follow_path`; on `TimeParadox`, delete the branch's rows, restore the
snapshot, set `new_branch_blank`, find the branch increment, fork and
travel there via the closet, clear the flag, re-resolve the start tick
on the new branch, and retry `follow_path` once — a second `TimeParadox`
escapes. -/
def journey_to (w : World) (destplace : String)
    (branchArg : Option Nat) (tickArg : Option Int) : Except JErr World :=
  let branch := branchArg.getD w.branch
  let otick := tickArg.getD w.tick
  let oloc := str_of_loc_opt (get_location w branch otick)
  match (journey_start w branch otick).2 with
  | none => .error .key_missing
  | some tick =>
    match find_path w.graph (journey_start w branch otick).1 destplace with
    | none => .error .journey
    | some path =>
      match branch_loc_rds w branch with
      | none => .error .key_missing
      | some locs =>
        match follow_path w path branch tick with
        | .ok w1 => .ok w1
        | .error _ =>
          let wA := { w with locations := skel_del w.locations branch }
          let wB := restore_loc_rds wA locs
          let wC := { wB with blank := true }
          let inc := inc_find wC.locations branch
          match Closet.time_travel_inc_branch wC inc with
          | .error .timestream => .error .timestream
          | .error .key_missing => .error .key_missing
          | .ok wD =>
            let wE := { wD with blank := false }
            match
              (match portexMatch oloc with
               | some _ => skel_key_after wE.locations wE.branch otick
               | none => some otick) with
            | none => .error .key_missing
            | some tick2 =>
              match follow_path wE path wE.branch tick2 with
              | .ok w2 => .ok w2
              | .error _ => .error .time_paradox

end Thing

/-! ## Lemmas about the skeleton primitives -/

theorem skel_series_skel_set (sk : Skel) (b : Nat) (s : Series) (c : Nat) :
    skel_series (skel_set sk b s) c =
      if b = c then some s else skel_series sk c := by
  induction sk with
  | nil => simp [skel_set, skel_series]
  | cons hd rest ih =>
    obtain ⟨d, u⟩ := hd
    unfold skel_set
    by_cases h1 : b < d
    · rw [if_pos h1]
      simp only [skel_series]
    · rw [if_neg h1]
      by_cases h2 : b = d
      · rw [if_pos h2]
        subst h2
        simp only [skel_series]
        by_cases h3 : b = c <;> simp [h3]
      · rw [if_neg h2]
        simp only [skel_series]
        by_cases h3 : d = c
        · have h4 : ¬ b = c := by omega
          simp [h3, h4]
        · simp [h3, ih]

theorem skel_series_skel_del (sk : Skel) (b c : Nat) :
    skel_series (skel_del sk b) c =
      if b = c then none else skel_series sk c := by
  induction sk with
  | nil => simp [skel_del, skel_series]
  | cons hd rest ih =>
    obtain ⟨d, u⟩ := hd
    unfold skel_del
    by_cases h1 : d = b
    · subst h1
      rw [if_pos rfl, ih]
      simp only [skel_series]
      by_cases h3 : d = c
      · subst h3; simp
      · simp [h3]
    · rw [if_neg h1]
      simp only [skel_series]
      by_cases h3 : d = c
      · subst h3
        have h4 : ¬ b = d := fun hh => h1 hh.symm
        simp [h4]
      · simp [h3, ih]

theorem series_get_mem (s : Series) (t : Int) (rd : RD)
    (h : series_get s t = some rd) : (t, rd) ∈ s := by
  induction s with
  | nil => simp [series_get] at h
  | cons hd rest ih =>
    obtain ⟨k, r⟩ := hd
    unfold series_get at h
    by_cases h1 : k = t
    · rw [if_pos h1] at h
      injection h with h2
      subst h1; subst h2
      exact List.mem_cons_self _ _
    · rw [if_neg h1] at h
      exact List.mem_cons_of_mem _ (ih h)

theorem series_put_mem (s : Series) (t : Int) (rd : RD) (p : Int × RD)
    (h : p ∈ series_put s t rd) : p = (t, rd) ∨ p ∈ s := by
  induction s with
  | nil =>
    simp [series_put] at h
    exact Or.inl h
  | cons hd rest ih =>
    obtain ⟨k, r⟩ := hd
    unfold series_put at h
    by_cases h1 : t < k
    · rw [if_pos h1] at h
      rcases List.mem_cons.mp h with h2 | h2
      · exact Or.inl h2
      · exact Or.inr h2
    · rw [if_neg h1] at h
      by_cases h2 : t = k
      · rw [if_pos h2] at h
        rcases List.mem_cons.mp h with h3 | h3
        · exact Or.inl h3
        · exact Or.inr (List.mem_cons_of_mem _ h3)
      · rw [if_neg h2] at h
        rcases List.mem_cons.mp h with h3 | h3
        · exact Or.inr (by rw [h3]; exact List.mem_cons_self _ _)
        · rcases ih h3 with h4 | h4
          · exact Or.inl h4
          · exact Or.inr (List.mem_cons_of_mem _ h4)

theorem key_after_gt (s : Series) (t : Int) :
    ∀ m : Int, key_after s t = some m → t < m := by
  induction s with
  | nil => intro m h; simp [key_after] at h
  | cons hd rest ih =>
    intro m h
    unfold key_after at h
    by_cases h1 : hd.1 > t
    · rw [if_pos h1] at h
      cases hr : key_after rest t with
      | none => rw [hr] at h; injection h with h2; omega
      | some m2 =>
        rw [hr] at h
        injection h with h2
        have h3 := ih m2 hr
        have h4 : t < min hd.1 m2 := lt_min h1 h3
        omega
    · rw [if_neg h1] at h
      exact ih m h

theorem key_after_none_of_bound (s : Series) (t : Int)
    (h : ∀ p ∈ s, p.1 ≤ t) : key_after s t = none := by
  induction s with
  | nil => rfl
  | cons hd rest ih =>
    unfold key_after
    have h1 : ¬ hd.1 > t := by
      have := h hd (List.mem_cons_self hd rest)
      omega
    rw [if_neg h1]
    exact ih (fun p hp => h p (List.mem_cons_of_mem hd hp))

theorem series_get_none_of_lb (s : Series) (F t : Int)
    (hlb : ∀ p ∈ s, F ≤ p.1) (ht : t < F) : series_get s t = none := by
  induction s with
  | nil => rfl
  | cons hd rest ih =>
    obtain ⟨k, r⟩ := hd
    unfold series_get
    have h1 : ¬ k = t := by
      have := hlb (k, r) (List.mem_cons_self _ _)
      simp at this
      omega
    rw [if_neg h1]
    exact ih (fun p hp => hlb p (List.mem_cons_of_mem _ hp))

theorem key_before_none_of_lb (s : Series) (F t : Int)
    (hlb : ∀ p ∈ s, F ≤ p.1) (ht : t < F) : key_before s t = none := by
  induction s with
  | nil => rfl
  | cons hd rest ih =>
    unfold key_before
    have h1 : ¬ hd.1 < t := by
      have := hlb hd (List.mem_cons_self hd rest)
      omega
    rw [if_neg h1]
    exact ih (fun p hp => hlb p (List.mem_cons_of_mem hd hp))

theorem skel_series_mem (sk : Skel) (b : Nat) (s : Series)
    (h : skel_series sk b = some s) : (b, s) ∈ sk := by
  induction sk with
  | nil => simp [skel_series] at h
  | cons hd rest ih =>
    obtain ⟨d, u⟩ := hd
    unfold skel_series at h
    by_cases h1 : d = b
    · rw [if_pos h1] at h
      injection h with h2
      subst h1; subst h2
      exact List.mem_cons_self _ _
    · rw [if_neg h1] at h
      exact List.mem_cons_of_mem _ (ih h)

/-! ## Field-preservation lemmas -/

theorem set_location_pres (w : World) (loc : String) (b : Nat) (t : Int) :
    (Thing.set_location w loc b t).branch = w.branch ∧
    (Thing.set_location w loc b t).tick = w.tick ∧
    (Thing.set_location w loc b t).history = w.history ∧
    (Thing.set_location w loc b t).blank = w.blank ∧
    (Thing.set_location w loc b t).things = w.things ∧
    (Thing.set_location w loc b t).graph = w.graph ∧
    (Thing.set_location w loc b t).dimName = w.dimName ∧
    (Thing.set_location w loc b t).thingName = w.thingName := by
  refine ⟨rfl, rfl, rfl, rfl, rfl, rfl, rfl, rfl⟩

theorem set_location_series (w : World) (loc : String) (b : Nat) (t : Int)
    (c : Nat) :
    skel_series (Thing.set_location w loc b t).locations c =
      if b = c then
        some (series_put ((skel_series w.locations b).getD []) t
          ⟨w.dimName, w.thingName, b, t, some loc⟩)
      else skel_series w.locations c := by
  unfold Thing.set_location
  exact skel_series_skel_set _ _ _ _

theorem set_location_hi_branch (w : World) (loc : String) (b : Nat) (t : Int) :
    (Thing.set_location w loc b t).ts.hi_branch =
      if b > w.ts.hi_branch then b else w.ts.hi_branch := rfl

theorem set_location_hi_branch_le (w : World) (loc : String) (b : Nat)
    (t : Int) :
    w.ts.hi_branch ≤ (Thing.set_location w loc b t).ts.hi_branch := by
  rw [set_location_hi_branch]
  split <;> omega

theorem ensure_branch_pres (w : World) (b : Nat) :
    (Thing.ensure_branch w b).branch = w.branch ∧
    (Thing.ensure_branch w b).tick = w.tick ∧
    (Thing.ensure_branch w b).history = w.history ∧
    (Thing.ensure_branch w b).blank = w.blank ∧
    (Thing.ensure_branch w b).things = w.things ∧
    (Thing.ensure_branch w b).graph = w.graph ∧
    (Thing.ensure_branch w b).ts = w.ts ∧
    (Thing.ensure_branch w b).dimName = w.dimName ∧
    (Thing.ensure_branch w b).thingName = w.thingName := by
  unfold Thing.ensure_branch
  split <;> exact ⟨rfl, rfl, rfl, rfl, rfl, rfl, rfl, rfl, rfl⟩

theorem ensure_branch_series_ne (w : World) (b c : Nat) (hc : b ≠ c) :
    skel_series (Thing.ensure_branch w b).locations c =
      skel_series w.locations c := by
  unfold Thing.ensure_branch
  split
  · rfl
  · show skel_series (skel_set w.locations b []) c = _
    rw [skel_series_skel_set, if_neg hc]

theorem ensure_branch_series_self (w : World) (b : Nat) :
    skel_series (Thing.ensure_branch w b).locations b =
      some ((skel_series w.locations b).getD []) := by
  unfold Thing.ensure_branch
  split
  · rename_i h
    cases hs : skel_series w.locations b with
    | none => rw [hs] at h; simp at h
    | some s => simp [hs]
  · rename_i h
    cases hs : skel_series w.locations b with
    | none =>
      show skel_series (skel_set w.locations b []) b = _
      rw [skel_series_skel_set, if_pos rfl]
      simp [hs]
    | some s => rw [hs] at h; simp at h

theorem get_location_rd_congr (w w' : World) (b : Nat) (t : Int)
    (hs : skel_series w'.locations b = skel_series w.locations b) :
    Thing.get_location_rd w' b t = Thing.get_location_rd w b t := by
  unfold Thing.get_location_rd
  rw [hs]

theorem get_location_congr (w w' : World) (b : Nat) (t : Int)
    (hs : skel_series w'.locations b = skel_series w.locations b)
    (hth : w'.things = w.things) :
    Thing.get_location w' b t = Thing.get_location w b t := by
  unfold Thing.get_location
  rw [get_location_rd_congr w w' b t hs, hth]

theorem get_location_rd_mem (w : World) (b : Nat) (t : Int) (rd : RD)
    (h : Thing.get_location_rd w b t = some rd) :
    ∃ ser, skel_series w.locations b = some ser ∧ ∃ k, (k, rd) ∈ ser := by
  cases hs : skel_series w.locations b with
  | none =>
    unfold Thing.get_location_rd at h
    rw [hs] at h
    exact absurd h (by simp)
  | some ser =>
    have h2 :
        (match series_get ser t with
         | some rd => some rd
         | none =>
           match key_before ser t with
           | none => none
           | some k => series_get ser k) = some rd := by
      unfold Thing.get_location_rd at h
      rw [hs] at h
      exact h
    refine ⟨ser, rfl, ?_⟩
    cases hg : series_get ser t with
    | some rd2 =>
      rw [hg] at h2
      injection h2 with h3
      subst h3
      exact ⟨t, series_get_mem ser t rd2 hg⟩
    | none =>
      rw [hg] at h2
      cases hb : key_before ser t with
      | none => rw [hb] at h2; exact absurd h2 (by simp)
      | some k =>
        rw [hb] at h2
        exact ⟨k, series_get_mem ser k rd h2⟩

/-! ## Lemmas about `restore_loc_rds` -/

theorem restore_cons (w : World) (rd : RD) (rest : List RD) :
    Thing.restore_loc_rds w (rd :: rest) =
      Thing.restore_loc_rds
        (Thing.set_location w
          (match rd.location with | none => "None" | some s => s)
          rd.branch rd.tick_from)
        rest := rfl

theorem restore_pres (rds : List RD) : ∀ w : World,
    (Thing.restore_loc_rds w rds).branch = w.branch ∧
    (Thing.restore_loc_rds w rds).tick = w.tick ∧
    (Thing.restore_loc_rds w rds).history = w.history ∧
    (Thing.restore_loc_rds w rds).blank = w.blank ∧
    (Thing.restore_loc_rds w rds).things = w.things ∧
    (Thing.restore_loc_rds w rds).graph = w.graph ∧
    (Thing.restore_loc_rds w rds).dimName = w.dimName ∧
    (Thing.restore_loc_rds w rds).thingName = w.thingName := by
  induction rds with
  | nil => intro w; exact ⟨rfl, rfl, rfl, rfl, rfl, rfl, rfl, rfl⟩
  | cons rd rest ih =>
    intro w
    rw [restore_cons]
    exact ih _

theorem restore_hi_branch_le (rds : List RD) : ∀ w : World,
    w.ts.hi_branch ≤ (Thing.restore_loc_rds w rds).ts.hi_branch := by
  induction rds with
  | nil => intro w; exact le_refl _
  | cons rd rest ih =>
    intro w
    rw [restore_cons]
    exact le_trans (set_location_hi_branch_le w _ rd.branch rd.tick_from)
      (ih _)

theorem restore_series_ne (rds : List RD) : ∀ (w : World) (c : Nat),
    (∀ rd ∈ rds, rd.branch ≠ c) →
    skel_series (Thing.restore_loc_rds w rds).locations c =
      skel_series w.locations c := by
  induction rds with
  | nil => intro w c _; rfl
  | cons rd rest ih =>
    intro w c hne
    rw [restore_cons]
    rw [ih _ c (fun r hr => hne r (List.mem_cons_of_mem _ hr))]
    rw [set_location_series]
    rw [if_neg (hne rd (List.mem_cons_self _ _))]

theorem restore_series_sub (rds : List RD) : ∀ (w : World) (c : Nat)
    (p : Int × RD),
    p ∈ (skel_series (Thing.restore_loc_rds w rds).locations c).getD [] →
    (∃ rd ∈ rds, p.2.location =
        some (match rd.location with | none => "None" | some s => s)) ∨
      p ∈ (skel_series w.locations c).getD [] := by
  induction rds with
  | nil => intro w c p hp; exact Or.inr hp
  | cons rd rest ih =>
    intro w c p hp
    rw [restore_cons] at hp
    rcases ih _ c p hp with h | h
    · obtain ⟨rd2, hrd2, hloc⟩ := h
      exact Or.inl ⟨rd2, List.mem_cons_of_mem _ hrd2, hloc⟩
    · rw [set_location_series] at h
      by_cases hc : rd.branch = c
      · rw [if_pos hc] at h
        simp only [Option.getD_some] at h
        rcases series_put_mem _ _ _ _ h with h2 | h2
        · refine Or.inl ⟨rd, List.mem_cons_self _ _, ?_⟩
          rw [h2]
        · exact Or.inr (hc ▸ h2)
      · rw [if_neg hc] at h
        exact Or.inr h

/-! ## The spec's description of `get_at` (for claim C5) -/

/-- The greatest key at or before `t` — the spec's "greatest
`tick_from <= tick`". -/
def key_le : Series → Int → Option Int
  | [], _ => none
  | p :: rest, t =>
    if p.1 ≤ t then
      match key_le rest t with
      | none => some p.1
      | some m => some (max p.1 m)
    else key_le rest t

theorem key_le_le (s : Series) (t : Int) :
    ∀ m : Int, key_le s t = some m → m ≤ t := by
  induction s with
  | nil => intro m h; simp [key_le] at h
  | cons hd rest ih =>
    intro m h
    unfold key_le at h
    by_cases h1 : hd.1 ≤ t
    · rw [if_pos h1] at h
      cases hr : key_le rest t with
      | none => rw [hr] at h; injection h with h2; omega
      | some m2 =>
        rw [hr] at h
        injection h with h2
        have h3 := ih m2 hr
        omega
    · rw [if_neg h1] at h
      exact ih m h

theorem key_le_of_get_some (s : Series) (t : Int) (rd : RD)
    (h : series_get s t = some rd) : key_le s t = some t := by
  induction s with
  | nil => simp [series_get] at h
  | cons hd rest ih =>
    obtain ⟨k, r⟩ := hd
    unfold series_get at h
    unfold key_le
    by_cases h1 : k = t
    · subst h1
      rw [if_pos (le_refl k)]
      cases hr : key_le rest k with
      | none => rfl
      | some m =>
        have h2 := key_le_le rest k m hr
        show some (max k m) = some k
        rw [max_eq_left h2]
    · rw [if_neg h1] at h
      have ih2 := ih h
      by_cases h2 : k ≤ t
      · rw [if_pos h2, ih2]
        show some (max k t) = some t
        rw [max_eq_right h2]
      · rw [if_neg h2]
        exact ih2

theorem key_le_of_get_none (s : Series) (t : Int)
    (h : series_get s t = none) : key_le s t = key_before s t := by
  induction s with
  | nil => rfl
  | cons hd rest ih =>
    obtain ⟨k, r⟩ := hd
    unfold series_get at h
    by_cases h1 : k = t
    · rw [if_pos h1] at h
      exact absurd h (by simp)
    · rw [if_neg h1] at h
      unfold key_le key_before
      by_cases h3 : k < t
      · rw [if_pos (show k ≤ t by omega), if_pos h3, ih h]
      · rw [if_neg (show ¬ k ≤ t by omega), if_neg h3]
        exact ih h

/-- The fact the spec's `get_at` denotes: the row whose `tick_from` is
the greatest one `<= tick`. -/
def spec_get_at (ser : Series) (t : Int) : Option RD :=
  match key_le ser t with
  | none => none
  | some k => series_get ser k

/-- `Thing.get_location` as the spec words it: resolve "the fact with
the greatest `tick_from <= tick`" in that branch; a `Portal` when the
stored string matches `Portal(origin->destination)`, the named `Thing`
of the dimension when one exists, otherwise the named `Place`; `none`
when no fact exists at or before that tick or the fact is a
tombstone. -/
def spec_get_location (w : World) (b : Nat) (t : Int) : Option LocObj :=
  match skel_series w.locations b with
  | none => none
  | some ser =>
    match spec_get_at ser t with
    | none => none
    | some rd =>
      match rd.location with
      | none => none
      | some s =>
        match portexMatch s with
        | some (o, d) => some (.portal o d)
        | none =>
          if s ∈ w.things then some (.thing s) else some (.place s)

theorem get_location_rd_eq_spec (w : World) (b : Nat) (t : Int) :
    Thing.get_location_rd w b t =
      (match skel_series w.locations b with
       | none => none
       | some ser => spec_get_at ser t) := by
  unfold Thing.get_location_rd spec_get_at
  cases hs : skel_series w.locations b with
  | none => rfl
  | some ser =>
    cases hg : series_get ser t with
    | some rd =>
      simp only [key_le_of_get_some ser t rd hg, hg]
    | none =>
      simp only [key_le_of_get_none ser t hg, hg]

/-! ## Claim C5 -/

/-- Claim C5: for every thing, branch and tick, `Thing.get_location`
resolves the fact with the greatest `tick_from <= tick` in that branch —
a `Portal` when the stored string matches `Portal(origin->destination)`,
the named `Thing` of the dimension when one exists, otherwise the named
`Place` — and returns `None` (no exception) when no fact exists at or
before that tick or the fact is a tombstone.  Stated as equality with
`spec_get_location`, the direct transcription of the spec's words. -/
theorem c5_get_location_follows_spec (w : World) (b : Nat) (t : Int) :
    Thing.get_location w b t = spec_get_location w b t := by
  unfold Thing.get_location spec_get_location
  rw [get_location_rd_eq_spec]
  cases hs : skel_series w.locations b with
  | none => rfl
  | some ser =>
    cases hg : spec_get_at ser t with
    | none => rfl
    | some rd => rfl

/-! ## Claim C10 -/

/-- Claim C10: after every `Thing.set_location(loc, branch, tick)`, the
timestream watermarks satisfy `hi_branch >= branch` and
`hi_tick >= tick`, and neither watermark decreases in the write. -/
theorem c10_set_location_watermarks (w : World) (loc : String) (b : Nat)
    (t : Int) :
    b ≤ (Thing.set_location w loc b t).ts.hi_branch ∧
    t ≤ (Thing.set_location w loc b t).ts.hi_tick ∧
    w.ts.hi_branch ≤ (Thing.set_location w loc b t).ts.hi_branch ∧
    w.ts.hi_tick ≤ (Thing.set_location w loc b t).ts.hi_tick := by
  unfold Thing.set_location Timestream.uptick Timestream.upbranch
  dsimp only
  refine ⟨?_, ?_, ?_, ?_⟩ <;> split <;> omega

/-! ## Claim C9 -/

theorem filter_not_mem_self (l : List RD) :
    l.filter (fun rd => decide (rd ∉ l)) = [] := by
  rw [List.filter_eq_nil_iff]
  intro a ha
  simp [ha]

/-- Claim C9: after `checkpoint()`, the diff between the current store
and the saved baseline is empty in both directions, and a second
`checkpoint()` with no intervening writes changes nothing. -/
theorem c9_checkpoint_idempotent (w : World) :
    Closet.skel_minus (Closet.checkpoint w).locations
        (Closet.checkpoint w).old = [] ∧
    Closet.skel_minus (Closet.checkpoint w).old
        (Closet.checkpoint w).locations = [] ∧
    Closet.checkpoint (Closet.checkpoint w) = Closet.checkpoint w := by
  unfold Closet.checkpoint Closet.skel_minus
  exact ⟨filter_not_mem_self _, filter_not_mem_self _, rfl⟩

/-! ## Claim C4 -/

/-- Claim C4: `time_travel(branch, tick)` fails with the timestream
error when `branch > hi_branch + 1` (raised before anything is mutated,
so the cursor is unchanged), and when `branch == hi_branch + 1` it first
runs `new_branch(current_branch, branch, tick)` and only then the
cursor-moving tail `tt_finish`. -/
theorem c4_time_travel_branch_guard (w : World) (b : Nat) (t : Int) :
    (b > w.ts.hi_branch + 1 →
      Closet.time_travel w b t = .error .timestream) ∧
    (b = w.ts.hi_branch + 1 →
      Closet.time_travel w b t =
        match Closet.new_branch w w.branch b t with
        | .error e => .error e
        | .ok w1 => .ok (Closet.tt_finish w1 b t)) := by
  constructor
  · intro h
    unfold Closet.time_travel
    rw [if_pos h]
  · intro h
    unfold Closet.time_travel
    rw [if_neg (by omega), if_pos h]

def c4w : World :=
  ⟨"Physical", "T", ["T"],
   [(0, [(0, ⟨"Physical", "T", 0, 0, some "A"⟩)])],
   [], 0, 0, ⟨0, 0, [(0, 0)]⟩, [], false, []⟩

theorem c4_witness :
    Closet.time_travel c4w 5 7 = .error .timestream ∧
    Closet.time_travel c4w 1 7 =
      (match Closet.new_branch c4w c4w.branch 1 7 with
       | .error e => .error e
       | .ok w1 => .ok (Closet.tt_finish w1 1 7)) :=
  ⟨(c4_time_travel_branch_guard c4w 5 7).1 (by decide),
   (c4_time_travel_branch_guard c4w 1 7).2 (by decide)⟩

/-! ## Claim C6 -/

def c6w : World :=
  ⟨"Physical", "T", ["T"],
   [(0, [(2, ⟨"Physical", "T", 0, 2, some "Portal(A->B)"⟩),
         (10, ⟨"Physical", "T", 0, 10, some "B"⟩)])],
   [⟨"A", "B", 10⟩], 0, 5, ⟨0, 10, [(0, 0)]⟩, [], false, []⟩

/-- Claim C6, evaluated at the failing input: a thing inside
`Portal(A->B)` at tick 5 (arrival fact at tick 10).  `journey_to`'s
start resolution (lines 209–218: `loc = m.groups()[0]`) yields the
portal's *origin* `"A"` as the start place — not the destination `"B"`
the spec prescribes — while correctly scheduling from the arrival tick
10; the thing's actual location at that scheduling tick is the
destination `B`. -/
theorem c6_journey_start_uses_portal_origin :
    Thing.journey_start c6w 0 5 = ("A", some 10) ∧
    Thing.get_location c6w 0 5 = some (.portal "A" "B") ∧
    Thing.get_location c6w 0 10 = some (.place "B") := by
  refine ⟨by decide, by decide, by decide⟩

/-! ## Claim C2: counterexample -/

def c2w : World :=
  ⟨"Physical", "T", ["T"],
   [(0, [(0, ⟨"Physical", "T", 0, 0, some "A"⟩),
         (10, ⟨"Physical", "T", 0, 10, some "B"⟩)])],
   [], 0, 0, ⟨0, 10, [(0, 0)]⟩, [], false, []⟩

def c2w1 : World :=
  match Thing.new_branch c2w 0 1 5 with
  | .ok w => w
  | .error _ => c2w

/-- Claim C2 counterexample: branch 1 is created from parent 0 at fork
tick 5 while the parent holds facts at ticks 0 and 10.  At tick `3 < 5`
the parent resolves to place `A` but the new branch resolves to `None`:
the child branch stores nothing before its fork tick, so pre-fork
lookups do not equal the parent's. -/
theorem c2_counterexample :
    Thing.new_branch c2w 0 1 5 = .ok c2w1 ∧
    (3 : Int) < 5 ∧
    Thing.get_location c2w1 1 3 = none ∧
    Thing.get_location c2w1 0 3 = some (.place "A") :=
  ⟨rfl, by decide, by decide, by decide⟩

/-! ## Claim C2: amended statement -/

theorem new_branch_step_lb (b : Nat) (F : Int) (l : Series) :
    ∀ acc : Skel × Option RD × Bool,
      (∀ p ∈ (skel_series acc.1 b).getD [], F ≤ p.1) →
      ∀ p ∈ (skel_series (l.foldl (Thing.new_branch_step b F) acc).1 b).getD [],
        F ≤ p.1 := by
  induction l with
  | nil => intro acc h; exact h
  | cons hd rest ih =>
    intro acc h
    rw [List.foldl_cons]
    apply ih
    obtain ⟨sk, prev, started⟩ := acc
    intro p hp
    simp only [Thing.new_branch_step] at hp
    by_cases h1 : hd.2.tick_from ≥ F
    · rw [if_pos h1] at hp
      have hsk1 : ∀ q ∈ (skel_series
          (skel_set sk b (series_put ((skel_series sk b).getD [])
            hd.2.tick_from { hd.2 with branch := b })) b).getD [],
          F ≤ q.1 := by
        intro q hq
        rw [skel_series_skel_set, if_pos rfl] at hq
        simp only [Option.getD_some] at hq
        rcases series_put_mem _ _ _ _ hq with h2 | h2
        · rw [h2]; exact h1
        · exact h q h2
      cases prev with
      | none =>
        exact hsk1 p hp
      | some pr =>
        dsimp only at hp
        by_cases h2 : ¬started = true ∧ hd.2.tick_from > F ∧ pr.tick_from < F
        · rw [if_pos h2] at hp
          rw [skel_series_skel_set, if_pos rfl] at hp
          simp only [Option.getD_some] at hp
          rcases series_put_mem _ _ _ _ hp with h3 | h3
          · rw [h3]
          · exact hsk1 p h3
        · rw [if_neg h2] at hp
          exact hsk1 p hp
    · rw [if_neg h1] at hp
      exact h p hp

/-- Claim C2, amended: the code does not copy parent history from before
the fork tick, so for a freshly created branch `B` forked at tick `F`,
every lookup at a tick `t < F` on `B` resolves to `None` — it does
*not* equal the parent's lookup (which the counterexample shows can be a
real place).  Inheritance of the parent's value only begins at the fork
tick itself, where `new_branch` plants a copy. -/
theorem c2_amended_child_has_no_prefork_facts (w : World) (pa b : Nat)
    (F t : Int) (w' : World)
    (hfresh : skel_series w.locations b = none)
    (hok : Thing.new_branch w pa b F = .ok w')
    (ht : t < F) :
    Thing.get_location w' b t = none := by
  have hbase : skel_series (Thing.ensure_branch w b).locations b = some [] := by
    rw [ensure_branch_series_self, hfresh]
    rfl
  have hkeys : ∀ q ∈ (skel_series w'.locations b).getD [], F ≤ q.1 := by
    unfold Thing.new_branch at hok
    simp only at hok
    by_cases hbl : (Thing.ensure_branch w b).blank = true
    · rw [if_pos hbl] at hok
      cases hloc : Thing.get_location (Thing.ensure_branch w b) pa F with
      | none =>
        rw [hloc] at hok
        injection hok with hok2
        subst hok2
        intro q hq
        rw [set_location_series, if_pos rfl, hbase] at hq
        simp only [Option.getD_some] at hq
        rcases series_put_mem _ _ _ _ hq with h2 | h2
        · rw [h2]
        · exact absurd h2 (by simp)
      | some lo =>
        cases lo with
        | portal o d =>
          rw [hloc] at hok
          cases hka : skel_key_after (Thing.ensure_branch w b).locations pa F with
          | none => rw [hka] at hok; exact absurd hok (by simp)
          | some t2 =>
            rw [hka] at hok
            injection hok with hok2
            subst hok2
            intro q hq
            rw [set_location_series, if_pos rfl, hbase] at hq
            simp only [Option.getD_some] at hq
            rcases series_put_mem _ _ _ _ hq with h2 | h2
            · rw [h2]
              have : F < t2 := by
                unfold skel_key_after at hka
                cases hsp : skel_series (Thing.ensure_branch w b).locations pa with
                | none => rw [hsp] at hka; exact absurd hka (by simp)
                | some sp =>
                  rw [hsp] at hka
                  exact key_after_gt sp F t2 hka
              omega
            · exact absurd h2 (by simp)
        | thing n =>
          rw [hloc] at hok
          injection hok with hok2
          subst hok2
          intro q hq
          rw [set_location_series, if_pos rfl, hbase] at hq
          simp only [Option.getD_some] at hq
          rcases series_put_mem _ _ _ _ hq with h2 | h2
          · rw [h2]
          · exact absurd h2 (by simp)
        | place n =>
          rw [hloc] at hok
          injection hok with hok2
          subst hok2
          intro q hq
          rw [set_location_series, if_pos rfl, hbase] at hq
          simp only [Option.getD_some] at hq
          rcases series_put_mem _ _ _ _ hq with h2 | h2
          · rw [h2]
          · exact absurd h2 (by simp)
    · rw [if_neg hbl] at hok
      cases hps : skel_series (Thing.ensure_branch w b).locations pa with
      | none => rw [hps] at hok; exact absurd hok (by simp)
      | some pser =>
        rw [hps] at hok
        injection hok with hok2
        subst hok2
        intro q hq
        refine new_branch_step_lb b F pser
          ((Thing.ensure_branch w b).locations, none, false) ?_ q hq
        intro q2 hq2
        rw [hbase] at hq2
        exact absurd hq2 (by simp)
  have hrd : Thing.get_location_rd w' b t = none := by
    cases hs : skel_series w'.locations b with
    | none =>
      unfold Thing.get_location_rd
      rw [hs]
    | some ser =>
      have hser : ∀ q ∈ ser, F ≤ q.1 := by
        intro q hq
        apply hkeys
        rw [hs]
        exact hq
      unfold Thing.get_location_rd
      rw [hs]
      show (match series_get ser t with
            | some rd => some rd
            | none =>
              match key_before ser t with
              | none => none
              | some k => series_get ser k) = none
      rw [series_get_none_of_lb ser F t hser ht,
        key_before_none_of_lb ser F t hser ht]
  unfold Thing.get_location
  rw [hrd]

theorem c2_amended_witness :
    skel_series c2w.locations 1 = none ∧
    (3 : Int) < 5 ∧
    Thing.get_location c2w1 1 3 = none :=
  ⟨by decide, by decide,
   c2_amended_child_has_no_prefork_facts c2w 0 1 5 3 c2w1 (by decide) rfl
     (by decide)⟩

/-! ## Claim C3 -/

/-- The sequence of location facts the spec's §4.5 step 3 prescribes for
a path followed from scheduling tick `cur`: for each portal, a fact
placing the thing in the portal at the current scheduling tick, then a
fact at the portal's destination `get_ticks_thru` later, the next portal
starting one tick after that arrival. -/
def expected_schedule : List Portal → Int → List (Int × String)
  | [], _ => []
  | p :: ps, cur =>
    (cur, Thing.str_of_loc_opt (some (.portal p.origin p.destination))) ::
    (cur + (Thing.get_ticks_thru p : Int), p.destination) ::
    expected_schedule ps (cur + (Thing.get_ticks_thru p : Int) + 1)

theorem follow_write_eq_schedule (b : Nat) : ∀ (ps : List Portal)
    (w : World) (cur : Int),
    Thing.follow_write b w cur ps =
      (expected_schedule ps cur).foldl
        (fun acc q => Thing.set_location acc q.2 b q.1) w := by
  intro ps
  induction ps with
  | nil => intro w cur; rfl
  | cons p rest ih =>
    intro w cur
    simp only [Thing.follow_write, expected_schedule, List.foldl_cons]
    exact ih _ _

def c3w : World :=
  ⟨"Physical", "T", ["T"],
   [(0, [(0, ⟨"Physical", "T", 0, 0, some "A"⟩)])],
   [⟨"A", "B", 10⟩], 0, 0, ⟨0, 0, [(0, 0)]⟩, [], false, []⟩

/-- Claim C3: `follow_path` writes, for each portal in sequence, a fact
placing the thing in the portal at the current scheduling tick (starting
one tick after the journey tick) and a fact placing it at the portal's
destination `ticks_to_cross` later, where `ticks_to_cross =
ceil(portal_length / 0.1) = get_ticks_thru`; in the one-portal scenario
(length 10, speed 0.1, thing at place `A` at tick 0) the resulting facts
are `(A, 0)`, `(Portal(A->B), 1)`, `(B, 101)`. -/
theorem c3_follow_path_schedule :
    (∀ (w : World) (path : List Portal) (b : Nat) (t : Int),
      skel_key_after w.locations b t = none →
      Thing.follow_path w path b t =
        .ok ((expected_schedule path (t + 1)).foldl
          (fun acc q => Thing.set_location acc q.2 b q.1) w)) ∧
    (∀ po : Portal,
      ⌈(po.len : ℚ) / (0.1 : ℚ)⌉ = (Thing.get_ticks_thru po : ℤ)) ∧
    (ex_ok (Thing.journey_to c3w "B" none none)).map
        (fun w => skel_series w.locations 0) =
      some (some [(0, ⟨"Physical", "T", 0, 0, some "A"⟩),
                  (1, ⟨"Physical", "T", 0, 1, some "Portal(A->B)"⟩),
                  (101, ⟨"Physical", "T", 0, 101, some "B"⟩)]) := by
  refine ⟨?_, ?_, ?_⟩
  · intro w path b t h
    unfold Thing.follow_path
    rw [h, follow_write_eq_schedule]
  · intro po
    have h1 : (po.len : ℚ) / (0.1 : ℚ) = ((po.len * 10 : ℕ) : ℚ) := by
      push_cast
      ring_nf
    rw [h1, Int.ceil_natCast]
    rfl
  · decide

theorem c3_witness :
    skel_key_after c3w.locations 0 0 = none ∧
    Thing.follow_path c3w [⟨"A", "B", 10⟩] 0 0 =
      .ok ((expected_schedule [⟨"A", "B", 10⟩] 1).foldl
        (fun acc q => Thing.set_location acc q.2 0 q.1) c3w) :=
  ⟨by decide, c3_follow_path_schedule.1 c3w [⟨"A", "B", 10⟩] 0 0 (by decide)⟩

/-! ## Claim C8 -/

theorem chains_sound (g : List Portal) : ∀ (n : Nat) (src : String)
    (p : List Portal), p ∈ chains g n src →
    (∀ e ∈ p, e ∈ g) ∧ chain_ok src p = true := by
  intro n
  induction n with
  | zero =>
    intro src p hp
    simp only [chains, List.mem_singleton] at hp
    subst hp
    exact ⟨by simp, rfl⟩
  | succ m ih =>
    intro src p hp
    simp only [chains, List.cons_append, List.nil_append, List.mem_cons,
      List.mem_flatMap, List.mem_map, List.mem_filter] at hp
    rcases hp with hp | ⟨e, ⟨heg, heo⟩, q, hq, hpq⟩
    · subst hp
      exact ⟨by simp, rfl⟩
    · subst hpq
      obtain ⟨hqg, hqok⟩ := ih e.destination q hq
      refine ⟨?_, ?_⟩
      · intro x hx
        rcases List.mem_cons.mp hx with hx | hx
        · rw [hx]; exact heg
        · exact hqg x hx
      · unfold chain_ok
        rw [Bool.and_eq_true]
        exact ⟨heo, hqok⟩

theorem pick_shortest_go (l : List (List Portal)) :
    ∀ (acc : Option (List Portal)) (p : List Portal),
      List.foldl
        (fun acc p =>
          match acc with
          | none => some p
          | some q => if p.length < q.length then some p else acc)
        acc l = some p →
      acc = some p ∨ p ∈ l := by
  induction l with
  | nil => intro acc p h; exact Or.inl h
  | cons hd rest ih =>
    intro acc p h
    rw [List.foldl_cons] at h
    rcases ih _ p h with h2 | h2
    · cases acc with
      | none =>
        injection h2 with h3
        exact Or.inr (by rw [← h3]; exact List.mem_cons_self _ _)
      | some q =>
        dsimp only at h2
        by_cases h4 : hd.length < q.length
        · rw [if_pos h4] at h2
          injection h2 with h3
          exact Or.inr (by rw [← h3]; exact List.mem_cons_self _ _)
        · rw [if_neg h4] at h2
          exact Or.inl h2
    · exact Or.inr (List.mem_cons_of_mem _ h2)

theorem find_path_sound (g : List Portal) (src dst : String)
    (p : List Portal) (h : find_path g src dst = some p) :
    IsPath g src dst p := by
  unfold find_path pick_shortest at h
  rcases pick_shortest_go _ none p h with h2 | h2
  · exact absurd h2 (by simp)
  · rw [List.mem_filter] at h2
    obtain ⟨hmem, hdec⟩ := h2
    have hprop := of_decide_eq_true hdec
    obtain ⟨hne, hend⟩ := hprop
    obtain ⟨hg, hok⟩ := chains_sound g g.length src p hmem
    exact ⟨hne, hg, hok, hend⟩

/-- Claim C8: when the character's graph contains no portal path from
the journey's effective start place to the destination, `journey_to`
fails with `JourneyException` — no location fact is written (the raise
happens before any `set_location` on this code path) and the error is
not caught, so there is no retry. -/
theorem c8_no_path_journey_error (w : World) (dest : String)
    (bArg : Option Nat) (tArg : Option Int)
    (hstart :
      (Thing.journey_start w (bArg.getD w.branch) (tArg.getD w.tick)).2.isSome)
    (hnopath : ∀ p, ¬ IsPath w.graph
      (Thing.journey_start w (bArg.getD w.branch) (tArg.getD w.tick)).1
      dest p) :
    Thing.journey_to w dest bArg tArg = .error .journey := by
  cases hs : (Thing.journey_start w (bArg.getD w.branch) (tArg.getD w.tick)).2 with
  | none => rw [hs] at hstart; exact absurd hstart (by simp)
  | some tick =>
    cases hf : find_path w.graph
        (Thing.journey_start w (bArg.getD w.branch) (tArg.getD w.tick)).1
        dest with
    | some path => exact absurd (find_path_sound _ _ _ _ hf) (hnopath path)
    | none =>
      simp only [Thing.journey_to, hs, hf]

def c8w : World :=
  ⟨"Physical", "T", ["T"],
   [(0, [(0, ⟨"Physical", "T", 0, 0, some "A"⟩)])],
   [], 0, 0, ⟨0, 0, [(0, 0)]⟩, [], false, []⟩

theorem c8_witness :
    Thing.journey_to c8w "B" none none = .error .journey :=
  c8_no_path_journey_error c8w "B" none none (by decide)
    (by
      intro p hp
      obtain ⟨hne, hmem, _, _⟩ := hp
      cases p with
      | nil => exact hne rfl
      | cons e es => exact absurd (hmem e (List.mem_cons_self e es)) (by simp [c8w]))

/-! ## Claim C7 -/

theorem thing_new_branch_pres (w : World) (pa b : Nat) (t : Int)
    (w' : World) (h : Thing.new_branch w pa b t = .ok w') :
    w'.branch = w.branch ∧ w'.tick = w.tick ∧ w'.history = w.history ∧
    w'.blank = w.blank ∧ w'.things = w.things ∧ w'.graph = w.graph ∧
    w'.dimName = w.dimName ∧ w'.thingName = w.thingName := by
  obtain ⟨e1, e2, e3, e4, e5, e6, _, e8, e9⟩ := ensure_branch_pres w b
  unfold Thing.new_branch at h
  simp only at h
  by_cases hbl : (Thing.ensure_branch w b).blank = true
  · rw [if_pos hbl] at h
    cases hloc : Thing.get_location (Thing.ensure_branch w b) pa t with
    | none =>
      rw [hloc] at h
      injection h with h2
      subst h2
      exact ⟨e1, e2, e3, e4, e5, e6, e8, e9⟩
    | some lo =>
      cases lo with
      | portal o d =>
        rw [hloc] at h
        cases hka : skel_key_after (Thing.ensure_branch w b).locations pa t with
        | none => rw [hka] at h; exact absurd h (by simp)
        | some t2 =>
          rw [hka] at h
          injection h with h2
          subst h2
          exact ⟨e1, e2, e3, e4, e5, e6, e8, e9⟩
      | thing n =>
        rw [hloc] at h
        injection h with h2
        subst h2
        exact ⟨e1, e2, e3, e4, e5, e6, e8, e9⟩
      | place n =>
        rw [hloc] at h
        injection h with h2
        subst h2
        exact ⟨e1, e2, e3, e4, e5, e6, e8, e9⟩
  · rw [if_neg hbl] at h
    cases hps : skel_series (Thing.ensure_branch w b).locations pa with
    | none => rw [hps] at h; exact absurd h (by simp)
    | some pser =>
      rw [hps] at h
      injection h with h2
      subst h2
      exact ⟨e1, e2, e3, e4, e5, e6, e8, e9⟩

theorem closet_new_branch_pres (w : World) (pa b : Nat) (t : Int)
    (w' : World) (h : Closet.new_branch w pa b t = .ok w') :
    w'.branch = w.branch ∧ w'.tick = w.tick ∧ w'.history = w.history ∧
    w'.blank = w.blank ∧ w'.things = w.things ∧ w'.graph = w.graph ∧
    w'.dimName = w.dimName ∧ w'.thingName = w.thingName := by
  unfold Closet.new_branch at h
  cases ht : Thing.new_branch w pa b t with
  | error e => rw [ht] at h; exact absurd h (by simp)
  | ok w1 =>
    rw [ht] at h
    injection h with h2
    subst h2
    exact thing_new_branch_pres w pa b t w1 ht

/-- Claim C7: after every successful `time_travel(branch, tick)`, the
cursor's tick is the requested tick clamped to `>= 0` and to the
branch's minimum tick with data, the pre-call `(branch, tick)` pair is
appended to the time-travel history, and `hi_tick` is raised to the
final tick exactly when that tick exceeds the watermark as it stood
after any branch creation. -/
theorem c7_time_travel_postconditions (w : World) (b : Nat) (t : Int)
    (w' : World) (h : Closet.time_travel w b t = .ok w') :
    w'.branch = b ∧
    w'.tick = max (max t 0) (Timestream.min_tick w' b) ∧
    w'.history = w.history ++ [(w.branch, w.tick)] ∧
    w'.tick ≤ w'.ts.hi_tick ∧
    ∃ w1, ((b = w.ts.hi_branch + 1 →
              Closet.new_branch w w.branch b t = .ok w1) ∧
           (b ≠ w.ts.hi_branch + 1 → w1 = w) ∧
           w'.ts.hi_tick = max w1.ts.hi_tick w'.tick) := by
  unfold Closet.time_travel at h
  by_cases hg : b > w.ts.hi_branch + 1
  · rw [if_pos hg] at h
    exact absurd h (by simp)
  · rw [if_neg hg] at h
    by_cases he : b = w.ts.hi_branch + 1
    · rw [if_pos he] at h
      cases hnb : Closet.new_branch w w.branch b t with
      | error e => rw [hnb] at h; exact absurd h (by simp)
      | ok w1 =>
        rw [hnb] at h
        injection h with h2
        subst h2
        obtain ⟨p1, p2, p3, _, _, _, _, _⟩ :=
          closet_new_branch_pres w w.branch b t w1 hnb
        refine ⟨rfl, ?_, ?_, ?_, w1, fun _ => rfl,
          fun hne => absurd he hne, ?_⟩
        · rw [show Timestream.min_tick (Closet.tt_finish w1 b t) b =
            Timestream.min_tick w1 b from rfl]
          unfold Closet.tt_finish
          dsimp only
          split_ifs <;> omega
        · show w1.history ++ [(w1.branch, w1.tick)] = _
          rw [p1, p2, p3]
        · show (Closet.tt_finish w1 b t).tick ≤
            (Closet.tt_finish w1 b t).ts.hi_tick
          unfold Closet.tt_finish
          dsimp only
          split_ifs <;> omega
        · show (Closet.tt_finish w1 b t).ts.hi_tick =
            max w1.ts.hi_tick (Closet.tt_finish w1 b t).tick
          unfold Closet.tt_finish
          dsimp only
          split_ifs <;> omega
    · rw [if_neg he] at h
      have h2 : Except.ok (α := World) (Closet.tt_finish w b t) = .ok w' := h
      injection h2 with h3
      subst h3
      refine ⟨rfl, ?_, ?_, ?_, w, fun habs => absurd habs he,
        fun _ => rfl, ?_⟩
      · rw [show Timestream.min_tick (Closet.tt_finish w b t) b =
          Timestream.min_tick w b from rfl]
        unfold Closet.tt_finish
        dsimp only
        split_ifs <;> omega
      · rfl
      · show (Closet.tt_finish w b t).tick ≤
          (Closet.tt_finish w b t).ts.hi_tick
        unfold Closet.tt_finish
        dsimp only
        split_ifs <;> omega
      · show (Closet.tt_finish w b t).ts.hi_tick =
          max w.ts.hi_tick (Closet.tt_finish w b t).tick
        unfold Closet.tt_finish
        dsimp only
        split_ifs <;> omega

def c7w : World :=
  ⟨"Physical", "T", ["T"],
   [(0, [(2, ⟨"Physical", "T", 0, 2, some "A"⟩)])],
   [], 0, 4, ⟨0, 4, [(0, 0)]⟩, [], false, []⟩

def c7res : World :=
  match Closet.time_travel c7w 0 (-5) with
  | .ok w => w
  | .error _ => c7w

theorem c7_witness :
    c7res.branch = 0 ∧
    c7res.tick = max (max (-5 : Int) 0) (Timestream.min_tick c7res 0) ∧
    c7res.history = c7w.history ++ [(c7w.branch, c7w.tick)] ∧
    c7res.tick ≤ c7res.ts.hi_tick ∧
    ∃ w1, ((0 = c7w.ts.hi_branch + 1 →
              Closet.new_branch c7w c7w.branch 0 (-5) = .ok w1) ∧
           (0 ≠ c7w.ts.hi_branch + 1 → w1 = c7w) ∧
           c7res.ts.hi_tick = max w1.ts.hi_tick c7res.tick) :=
  c7_time_travel_postconditions c7w 0 (-5) c7res rfl

/-! ## Claim C1: the paradox handler's branch seeding -/

/-- What the blank `new_branch` leaves behind when the thing sits at a
non-portal location: cursor, flag, things and graph untouched, the
`hi_branch` watermark not lowered, the new branch seeded with a single
row planted at the fork tick, all other branches untouched. -/
def SeedProps (w : World) (b : Nat) (t : Int) (w' : World) : Prop :=
  w'.branch = w.branch ∧ w'.tick = w.tick ∧ w'.blank = w.blank ∧
  w'.things = w.things ∧ w'.graph = w.graph ∧
  w.ts.hi_branch ≤ w'.ts.hi_branch ∧
  (∃ rd, skel_series w'.locations b =
    some (series_put ((skel_series w.locations b).getD []) t rd)) ∧
  (∀ c, c ≠ b → skel_series w'.locations c = skel_series w.locations c)

theorem seed_props_set_location (w : World) (b : Nat) (t : Int)
    (loc : String) :
    SeedProps w b t
      (Thing.set_location (Thing.ensure_branch w b) loc b t) := by
  obtain ⟨q1, q2, _, q4, q5, q6, q7, _, _⟩ := ensure_branch_pres w b
  refine ⟨q1, q2, q4, q5, q6, ?_, ?_, ?_⟩
  · calc w.ts.hi_branch = (Thing.ensure_branch w b).ts.hi_branch := by
          rw [q7]
      _ ≤ _ := set_location_hi_branch_le _ _ _ _
  · refine ⟨⟨(Thing.ensure_branch w b).dimName,
      (Thing.ensure_branch w b).thingName, b, t, some loc⟩, ?_⟩
    rw [set_location_series, if_pos rfl, ensure_branch_series_self]
    rfl
  · intro c hc
    rw [set_location_series, if_neg (fun hh => hc hh.symm),
      ensure_branch_series_ne w b c (fun hh => hc hh.symm)]

theorem thing_new_branch_blank_effect (w : World) (pa b : Nat) (t : Int)
    (hbl : w.blank = true) (hpb : pa ≠ b)
    (hnp : ∀ o d, Thing.get_location w pa t ≠ some (.portal o d)) :
    ∃ w', Thing.new_branch w pa b t = .ok w' ∧ SeedProps w b t w' := by
  obtain ⟨_, _, _, q4, q5, _, _, _, _⟩ := ensure_branch_pres w b
  have hser0 : skel_series (Thing.ensure_branch w b).locations pa =
      skel_series w.locations pa :=
    ensure_branch_series_ne w b pa (fun hh => hpb hh.symm)
  have hloc0 : Thing.get_location (Thing.ensure_branch w b) pa t =
      Thing.get_location w pa t :=
    get_location_congr w (Thing.ensure_branch w b) pa t hser0 q5
  unfold Thing.new_branch
  simp only
  rw [if_pos (by rw [q4]; exact hbl)]
  cases hloc : Thing.get_location (Thing.ensure_branch w b) pa t with
  | none =>
    exact ⟨_, rfl, seed_props_set_location w b t _⟩
  | some lo =>
    cases lo with
    | portal o d =>
      rw [hloc0] at hloc
      exact absurd hloc (hnp o d)
    | thing n =>
      exact ⟨_, rfl, seed_props_set_location w b t _⟩
    | place n =>
      exact ⟨_, rfl, seed_props_set_location w b t _⟩

theorem closet_new_branch_blank_effect (w : World) (pa b : Nat) (t : Int)
    (hbl : w.blank = true) (hpb : pa ≠ b)
    (hnp : ∀ o d, Thing.get_location w pa t ≠ some (.portal o d)) :
    ∃ w', Closet.new_branch w pa b t = .ok w' ∧ SeedProps w b t w' := by
  obtain ⟨w1, hw1, props⟩ := thing_new_branch_blank_effect w pa b t hbl hpb hnp
  unfold Closet.new_branch
  rw [hw1]
  exact ⟨_, rfl, props⟩

/-! ## The increment search -/

theorem inc_find_go_spec (sk : Skel) (b : Nat) : ∀ (fuel i : Nat),
    (∃ j, i ≤ j ∧ j ≤ i + fuel ∧ skel_series sk (b + j) = none) →
    skel_series sk (b + inc_find_go sk b fuel i) = none ∧
      i ≤ inc_find_go sk b fuel i := by
  intro fuel
  induction fuel with
  | zero =>
    intro i hex
    obtain ⟨j, h1, h2, h3⟩ := hex
    have : j = i := by omega
    subst this
    exact ⟨h3, le_refl _⟩
  | succ f ih =>
    intro i hex
    unfold inc_find_go
    by_cases hs : (skel_series sk (b + i)).isSome
    · rw [if_pos hs]
      have hex2 : ∃ j, i + 1 ≤ j ∧ j ≤ i + 1 + f ∧
          skel_series sk (b + j) = none := by
        obtain ⟨j, h1, h2, h3⟩ := hex
        have hji : j ≠ i := by
          intro hh
          subst hh
          rw [h3] at hs
          simp at hs
        exact ⟨j, by omega, by omega, h3⟩
      obtain ⟨r1, r2⟩ := ih (i + 1) hex2
      exact ⟨r1, by omega⟩
    · rw [if_neg hs]
      refine ⟨?_, le_refl _⟩
      cases hval : skel_series sk (b + i) with
      | none => rfl
      | some s => rw [hval] at hs; simp at hs

theorem inc_find_spec (sk : Skel) (b : Nat) :
    skel_series sk (b + inc_find sk b) = none ∧ 1 ≤ inc_find sk b := by
  unfold inc_find
  apply inc_find_go_spec
  refine ⟨skel_max_branch sk + 1, by omega, by omega, ?_⟩
  cases h : skel_series sk (b + (skel_max_branch sk + 1)) with
  | none => rfl
  | some s =>
    have := le_skel_max_branch sk (b + (skel_max_branch sk + 1))
      (by simp [h])
    omega

theorem inc_find_go_min (sk : Skel) (b : Nat) : ∀ (fuel i j : Nat),
    i ≤ j → j < inc_find_go sk b fuel i →
    (skel_series sk (b + j)).isSome := by
  intro fuel
  induction fuel with
  | zero =>
    intro i j hij hj
    unfold inc_find_go at hj
    omega
  | succ f ih =>
    intro i j hij hj
    unfold inc_find_go at hj
    by_cases hs : (skel_series sk (b + i)).isSome
    · rw [if_pos hs] at hj
      by_cases hji : j = i
      · subst hji; exact hs
      · exact ih (i + 1) j (by omega) hj
    · rw [if_neg hs] at hj
      omega

theorem inc_find_min (sk : Skel) (b : Nat) (j : Nat) (h1 : 1 ≤ j)
    (h2 : j < inc_find sk b) : (skel_series sk (b + j)).isSome :=
  inc_find_go_min sk b (skel_max_branch sk + 1) 1 j h1 h2

/-! ## Non-portal resolution -/

theorem get_location_not_portal (u : World) (bb : Nat) (t : Int)
    (hvals : ∀ p ∈ (skel_series u.locations bb).getD [],
      ∃ s2, p.2.location = some s2 ∧ portexMatch s2 = none) :
    ∀ o d, Thing.get_location u bb t ≠ some (.portal o d) := by
  intro o d hcontra
  cases hrd2 : Thing.get_location_rd u bb t with
  | none =>
    unfold Thing.get_location at hcontra
    rw [hrd2] at hcontra
    exact absurd hcontra (by simp)
  | some rd2 =>
    obtain ⟨ser2, hser2, k2, hk2⟩ := get_location_rd_mem u bb t rd2 hrd2
    obtain ⟨s2, hs2, hsnp2⟩ := hvals (k2, rd2) (by rw [hser2]; exact hk2)
    have hcontra2 :
        (match rd2.location with
         | none => none
         | some s =>
           match portexMatch s with
           | some (o, d) => some (LocObj.portal o d)
           | none =>
             if s ∈ u.things then some (LocObj.thing s)
             else some (LocObj.place s)) = some (LocObj.portal o d) := by
      unfold Thing.get_location at hcontra
      rw [hrd2] at hcontra
      exact hcontra
    rw [hs2] at hcontra2
    have hcontra3 :
        (match portexMatch s2 with
         | some (o, d) => some (LocObj.portal o d)
         | none =>
           if s2 ∈ u.things then some (LocObj.thing s2)
           else some (LocObj.place s2)) = some (LocObj.portal o d) :=
      hcontra2
    rw [hsnp2] at hcontra3
    by_cases hth : s2 ∈ u.things
    · rw [if_pos hth] at hcontra3
      exact absurd hcontra3 (by simp)
    · rw [if_neg hth] at hcontra3
      exact absurd hcontra3 (by simp)

/-! ## The time-travel step of the paradox handler -/

theorem tt_step_ready (u : World) (B : Nat) (T : Int) (inc : Nat)
    (hub : u.branch = B) (_hut : u.tick = T) (hbl : u.blank = true)
    (hnp : ∀ o d, Thing.get_location u B T ≠ some (.portal o d))
    (hle : B + inc ≤ u.ts.hi_branch + 1)
    (hinc1 : 1 ≤ inc)
    (hbound : ∀ p ∈ (skel_series u.locations (B + inc)).getD [], p.1 ≤ T) :
    ∃ wD, Closet.time_travel u (B + inc) T = .ok wD ∧
      wD.branch = B + inc ∧ wD.blank = u.blank ∧
      skel_key_after wD.locations (B + inc) T = none := by
  unfold Closet.time_travel
  rw [if_neg (by omega)]
  by_cases heq : B + inc = u.ts.hi_branch + 1
  · rw [if_pos heq]
    have hpb : u.branch ≠ B + inc := by omega
    have hnp2 : ∀ o d,
        Thing.get_location u u.branch T ≠ some (.portal o d) := by
      rw [hub]; exact hnp
    obtain ⟨u2, hu2, props⟩ :=
      closet_new_branch_blank_effect u u.branch (B + inc) T hbl hpb hnp2
    rw [hu2]
    obtain ⟨_, _, pbl, _, _, _, ⟨rd, hserb⟩, _⟩ := props
    refine ⟨Closet.tt_finish u2 (B + inc) T, rfl, rfl, pbl, ?_⟩
    show skel_key_after u2.locations (B + inc) T = none
    unfold skel_key_after
    rw [hserb]
    apply key_after_none_of_bound
    intro p hp
    rcases series_put_mem _ _ _ _ hp with h2 | h2
    · rw [h2]
    · exact hbound p h2
  · rw [if_neg heq]
    refine ⟨Closet.tt_finish u (B + inc) T, rfl, rfl, rfl, ?_⟩
    show skel_key_after u.locations (B + inc) T = none
    unfold skel_key_after
    cases hs : skel_series u.locations (B + inc) with
    | none => rfl
    | some s =>
      apply key_after_none_of_bound
      intro p hp
      apply hbound
      rw [hs]
      exact hp

/-- The paradox handler's fork-and-travel: starting from the restored
state with `new_branch_blank` set and the thing at a non-portal location
at the (cursor) journey tick, `time_travel_inc_branch` lands on a fresh
branch whose location series holds nothing after that tick, so the
retried `follow_path` cannot find a committed future fact. -/
theorem handler_retry_ready (v : World) (B : Nat) (T : Int)
    (hvb : v.branch = B) (hvt : v.tick = T) (hbl : v.blank = true)
    (hnp : ∀ o d, Thing.get_location v B T ≠ some (.portal o d))
    (hBle : B ≤ v.ts.hi_branch)
    (hhi : ∀ c, (skel_series v.locations c).isSome → c ≤ v.ts.hi_branch) :
    ∃ wD, Closet.time_travel_inc_branch v (inc_find v.locations B) = .ok wD ∧
      wD.branch = B + inc_find v.locations B ∧
      skel_key_after wD.locations (B + inc_find v.locations B) T = none := by
  obtain ⟨hnoneInc, hinc1⟩ := inc_find_spec v.locations B
  have hIncLe : B + inc_find v.locations B ≤ v.ts.hi_branch + 1 := by
    rcases Nat.lt_or_ge 1 (inc_find v.locations B) with h | h
    · have h2 := inc_find_min v.locations B (inc_find v.locations B - 1)
        (by omega) (by omega)
      have h3 := hhi _ h2
      omega
    · omega
  simp only [Closet.time_travel_inc_branch, Closet.increment_branch]
  by_cases hmb : v.branch + inc_find v.locations B >
      Timestream.max_branch v.ts
  · rw [if_pos hmb]
    have hpb1 : v.branch ≠ v.branch + 1 := by omega
    have hnpv : ∀ o d,
        Thing.get_location v v.branch v.tick ≠ some (.portal o d) := by
      rw [hvb, hvt]; exact hnp
    obtain ⟨vI, hvI, props⟩ :=
      closet_new_branch_blank_effect v v.branch (v.branch + 1) v.tick
        hbl hpb1 hnpv
    rw [hvI]
    obtain ⟨pb, pt, pbl, pth, pgr, phi, ⟨rdI, hserI⟩, pne⟩ := props
    have hubI : vI.branch = B := by rw [pb, hvb]
    have hutI : vI.tick = T := by rw [pt, hvt]
    have hblI : vI.blank = true := by rw [pbl]; exact hbl
    have hserBI : skel_series vI.locations B = skel_series v.locations B := by
      apply pne
      omega
    have hnpI : ∀ o d, Thing.get_location vI B T ≠ some (.portal o d) := by
      intro o d
      rw [get_location_congr v vI B T hserBI pth]
      exact hnp o d
    have hleI : B + inc_find v.locations B ≤ vI.ts.hi_branch + 1 := by
      omega
    have hboundI : ∀ p ∈ (skel_series vI.locations
        (B + inc_find v.locations B)).getD [], p.1 ≤ T := by
      by_cases hone : inc_find v.locations B = 1
      · intro p hp
        rw [show B + inc_find v.locations B = v.branch + 1 by omega] at hp
        rw [hserI] at hp
        have hbase : skel_series v.locations (v.branch + 1) = none := by
          rw [show v.branch + 1 = B + inc_find v.locations B by omega]
          exact hnoneInc
        rw [hbase] at hp
        simp only [Option.getD_some, Option.getD_none] at hp
        rcases series_put_mem _ _ _ _ hp with h2 | h2
        · rw [h2]
          dsimp only
          omega
        · exact absurd h2 (List.not_mem_nil p)
      · intro p hp
        rw [pne _ (by omega)] at hp
        rw [hnoneInc] at hp
        exact absurd hp (by simp)
    dsimp only
    rw [hubI, hutI]
    obtain ⟨wD, hwD, hwb, _, hka⟩ :=
      tt_step_ready vI B T (inc_find v.locations B) hubI hutI hblI hnpI
        hleI hinc1 hboundI
    rw [hwD]
    exact ⟨wD, rfl, hwb, hka⟩
  · rw [if_neg hmb]
    have hboundv : ∀ p ∈ (skel_series v.locations
        (B + inc_find v.locations B)).getD [], p.1 ≤ T := by
      intro p hp
      rw [hnoneInc] at hp
      exact absurd hp (by simp)
    dsimp only
    rw [hvb, hvt]
    obtain ⟨wD, hwD, hwb, _, hka⟩ :=
      tt_step_ready v B T (inc_find v.locations B) hvb hvt hbl hnp
        hIncLe hinc1 hboundv
    rw [hwD]
    exact ⟨wD, rfl, hwb, hka⟩

/-! ## Claim C1: the main theorem -/

/-- Claim C1, amended: when `journey_to` is invoked at the closet's
current cursor (the default branch and tick arguments) on a thing whose
location series in that branch holds only plain (non-portal,
non-tombstone) locations, and a committed fact exists strictly after the
starting tick, the first `follow_path` raises `TimeParadox`; `journey_to`
then discards and restores the branch's rows, forks via
`time_travel_inc_branch` onto a fresh branch whose series holds nothing
after the starting tick, and the single retried `follow_path` succeeds —
`TimeParadox` does not escape.  (The counterexample shows the original
claim fails when the journey tick lies before the closet's cursor tick:
the blank fork then seeds the new branch at the later cursor tick and
the retry raises `TimeParadox` again, which escapes.) -/
theorem c1_amended_retry_succeeds (w : World) (dest : String)
    (path : List Portal) (rd0 : RD)
    (hrd : Thing.get_location_rd w w.branch w.tick = some rd0)
    (hok : ∀ p ∈ (skel_series w.locations w.branch).getD [],
      p.2.branch = w.branch ∧ p.2.location ≠ none ∧
      portexMatch (p.2.location.getD "None") = none)
    (hpath : find_path w.graph
      (Thing.journey_start w w.branch w.tick).1 dest = some path)
    (hafter : (skel_key_after w.locations w.branch w.tick).isSome)
    (hhi : ∀ p ∈ w.locations, p.1 ≤ w.ts.hi_branch) :
    ∃ w2, Thing.journey_to w dest none none = .ok w2 := by
  have hok2 : ∀ p ∈ (skel_series w.locations w.branch).getD [],
      p.2.branch = w.branch ∧
      ∃ s, p.2.location = some s ∧ portexMatch s = none := by
    intro p hp
    obtain ⟨h1, h2, h3⟩ := hok p hp
    refine ⟨h1, ?_⟩
    cases hloc : p.2.location with
    | none => exact absurd hloc h2
    | some sx =>
      refine ⟨sx, rfl, ?_⟩
      rw [hloc] at h3
      exact h3
  have hhi2 : ∀ c, (skel_series w.locations c).isSome →
      c ≤ w.ts.hi_branch := by
    intro c hc
    obtain ⟨sX, hsX⟩ := Option.isSome_iff_exists.mp hc
    exact hhi (c, sX) (skel_series_mem _ _ _ hsX)
  obtain ⟨ser, hser, k0, hk0⟩ := get_location_rd_mem w w.branch w.tick rd0 hrd
  have hmem0 : (k0, rd0) ∈ (skel_series w.locations w.branch).getD [] := by
    rw [hser]; exact hk0
  obtain ⟨hbr0, s, hs, hsnp⟩ := hok2 _ hmem0
  dsimp only at hbr0 hs
  have hgl : Thing.get_location w w.branch w.tick =
      if s ∈ w.things then some (.thing s) else some (.place s) := by
    simp only [Thing.get_location, hrd, hs, hsnp]
  have holoc : Thing.str_of_loc_opt (Thing.get_location w w.branch w.tick) = s := by
    rw [hgl]
    by_cases hth : s ∈ w.things
    · rw [if_pos hth]; rfl
    · rw [if_neg hth]; rfl
  have hjs : Thing.journey_start w w.branch w.tick = (s, some w.tick) := by
    simp only [Thing.journey_start, holoc, hsnp]
  rw [hjs] at hpath
  have hpath2 : find_path w.graph s dest = some path := hpath
  have hlocs : Thing.branch_loc_rds w w.branch = some (ser.map Prod.snd) := by
    unfold Thing.branch_loc_rds
    rw [hser]
  obtain ⟨tn, htn⟩ := Option.isSome_iff_exists.mp hafter
  have hfp : Thing.follow_path w path w.branch w.tick = .error () := by
    unfold Thing.follow_path
    rw [htn]
  simp only [Thing.journey_to, Option.getD_none, hjs, hpath2, hlocs, hfp,
    holoc, hsnp]
  set wA : World := { w with locations := skel_del w.locations w.branch }
    with hwA
  set wB : World := Thing.restore_loc_rds wA (List.map Prod.snd ser)
    with hwB
  set wC : World := { wB with blank := true } with hwC
  have hvb : wC.branch = w.branch :=
    (restore_pres (List.map Prod.snd ser) wA).1
  have hvt : wC.tick = w.tick :=
    (restore_pres (List.map Prod.snd ser) wA).2.1
  have hbl : wC.blank = true := rfl
  have hvals : ∀ p ∈ (skel_series wC.locations w.branch).getD [],
      ∃ s2, p.2.location = some s2 ∧ portexMatch s2 = none := by
    intro p hp
    have hp2 : p ∈ (skel_series
        (Thing.restore_loc_rds wA (List.map Prod.snd ser)).locations
        w.branch).getD [] := hp
    rcases restore_series_sub (List.map Prod.snd ser) wA w.branch p hp2 with
      ⟨rdq, hrdq, hloc⟩ | hctr
    · obtain ⟨x, hx, hxe⟩ := List.mem_map.mp hrdq
      obtain ⟨_, sq, hsq, hsnpq⟩ := hok2 x (by rw [hser]; exact hx)
      refine ⟨sq, ?_, hsnpq⟩
      rw [hloc, ← hxe, hsq]
    · have hdel : skel_series wA.locations w.branch = none := by
        show skel_series (skel_del w.locations w.branch) w.branch = none
        rw [skel_series_skel_del, if_pos rfl]
      rw [hdel] at hctr
      exact absurd hctr (by simp)
  have hnpC : ∀ o d,
      Thing.get_location wC w.branch w.tick ≠ some (.portal o d) :=
    get_location_not_portal wC w.branch w.tick hvals
  have hwhi : w.ts.hi_branch ≤ wC.ts.hi_branch :=
    restore_hi_branch_le (List.map Prod.snd ser) wA
  have hBle : w.branch ≤ wC.ts.hi_branch := by
    have h1 : w.branch ≤ w.ts.hi_branch := by
      apply hhi2
      rw [hser]
      rfl
    omega
  have hhiC : ∀ c, (skel_series wC.locations c).isSome →
      c ≤ wC.ts.hi_branch := by
    intro c hc
    by_cases hcb : c = w.branch
    · subst hcb
      exact hBle
    · have hne2 : ∀ rdq ∈ List.map Prod.snd ser, rdq.branch ≠ c := by
        intro rdq hrdq
        obtain ⟨x, hx, hxe⟩ := List.mem_map.mp hrdq
        have hb := (hok2 x (by rw [hser]; exact hx)).1
        rw [← hxe, hb]
        exact fun hh => hcb hh.symm
      have hcc : skel_series wC.locations c = skel_series w.locations c := by
        have hstep : skel_series
            (Thing.restore_loc_rds wA (List.map Prod.snd ser)).locations c =
            skel_series wA.locations c :=
          restore_series_ne (List.map Prod.snd ser) wA c hne2
        have hstep2 : skel_series wA.locations c =
            skel_series w.locations c := by
          show skel_series (skel_del w.locations w.branch) c = _
          rw [skel_series_skel_del, if_neg (fun hh => hcb hh.symm)]
        exact hstep.trans hstep2
      rw [hcc] at hc
      exact le_trans (hhi2 c hc) hwhi
  obtain ⟨wD, hwD, hwb, hka⟩ :=
    handler_retry_ready wC w.branch w.tick hvb hvt hbl hnpC hBle hhiC
  have hwD2 : Closet.time_travel_inc_branch wC
      (inc_find wB.locations w.branch) = .ok wD := hwD
  rw [hwD2]
  dsimp only
  have hka2 : skel_key_after wD.locations wD.branch w.tick = none := by
    rw [hwb]
    exact hka
  have hfp2 : Thing.follow_path { wD with blank := false } path
      wD.branch w.tick =
      .ok (Thing.follow_write wD.branch { wD with blank := false }
        (w.tick + 1) path) := by
    unfold Thing.follow_path
    rw [show skel_key_after ({ wD with blank := false } : World).locations
      wD.branch w.tick = skel_key_after wD.locations wD.branch w.tick
      from rfl]
    rw [hka2]
  rw [hfp2]
  exact ⟨_, rfl⟩

/-- Claim C1 counterexample: the thing sits at `A` (tick 0) with a
committed fact at tick 3 on branch 0, and the closet cursor is at tick
5.  `journey_to(.., branch=0, tick=0)` hits the paradox (fact at tick
3 > 0), forks — but the blank fork seeds the new branch at the closet's
tick 5, which again lies after the journey tick 0, so the retried
`follow_path` raises `TimeParadox` and it escapes `journey_to`,
contradicting the claim that the exception never escapes. -/
def c1cw : World :=
  ⟨"Physical", "T", ["T"],
   [(0, [(0, ⟨"Physical", "T", 0, 0, some "A"⟩),
         (3, ⟨"Physical", "T", 0, 3, some "C"⟩)])],
   [⟨"A", "B", 10⟩], 0, 5, ⟨0, 5, [(0, 0)]⟩, [], false, []⟩

theorem c1_counterexample :
    skel_key_after c1cw.locations 0 0 = some 3 ∧
    Thing.journey_to c1cw "B" none (some 0) = .error .time_paradox :=
  ⟨by decide, rfl⟩

def c1ww : World :=
  ⟨"Physical", "T", ["T"],
   [(0, [(0, ⟨"Physical", "T", 0, 0, some "A"⟩),
         (3, ⟨"Physical", "T", 0, 3, some "C"⟩)])],
   [⟨"A", "B", 10⟩], 0, 0, ⟨0, 5, [(0, 0)]⟩, [], false, []⟩

theorem c1_amended_witness :
    ∃ w2, Thing.journey_to c1ww "B" none none = .ok w2 :=
  c1_amended_retry_succeeds c1ww "B" [⟨"A", "B", 10⟩]
    ⟨"Physical", "T", 0, 0, some "A"⟩
    (by decide) (by decide) (by decide) (by decide) (by decide)
